import Mathlib

/-!
Verification of the packrust parser-combinator core.

The development shallowly embeds the memoizing driver and the combinator
algebra of `src/src/lib.rs` (types `ParseError`, `Entry`, `Context`,
`Parser::parse`, the combinators `map`, `try_map`, `and`, `many`, `opt`,
`or`, the leaf constructor `satisfy`/`char`, and `lazy`), and the
eviction-scheduling helpers of `src/src/context.rs`.  Rust's general
recursion is modelled with an explicit fuel parameter: every recursive
call consumes one unit, `none` means the fuel ran out before the source
program returned.
-/

namespace Packrat

/-- Uniform universe of parser result values.  The Rust cache stores
`Rc<dyn Any>` entries whose dynamic type is fixed per parser id; a closed
value universe makes the heterogeneous table directly representable. -/
inductive Val where
  | ch (c : Char)
  | pair (a b : Val)
  | vnil
  | vcons (a b : Val)
  | vnone
  | vsome (v : Val)
  deriving DecidableEq, Repr

/-- Encode a `Vec<T>` result (produced by `many`) in the value universe. -/
def listVal : List Val → Val
  | [] => .vnil
  | v :: rest => .vcons v (listVal rest)

/-- `ParseError` from src/src/lib.rs (lines 12-17): source snapshot,
position and diagnostic reason. -/
structure ParseError where
  source : List Char
  pos : Nat
  reason : String
  deriving DecidableEq, Repr

/-- `ParseResult<T> = Result<(Pos, T), ParseError>` from src/src/lib.rs. -/
inductive PResult where
  | ok (pos : Nat) (v : Val)
  | err (e : ParseError)
  deriving DecidableEq, Repr

/-- `Result::is_err`. -/
def PResult.isErr : PResult → Bool
  | .ok _ _ => false
  | .err _ => true

/-- `Entry<T>` from src/src/lib.rs (lines 22-27). -/
inductive Entry where
  | initial
  | inProgress (r : PResult)
  | fixed (r : PResult)
  deriving DecidableEq, Repr

/-- Cache keys `(ParserId, Pos)`. -/
abbrev CacheKey := Nat × Nat

/-- `Context` from src/src/lib.rs (lines 29-33): memo cache, materialized
source and the left-recursion stack.  The `HashMap` is modelled as an
association list whose operations mimic `get`/`insert`/`remove`; the
`Vec` stack keeps its most recently pushed element at the list head. -/
structure Ctx where
  cache : List (CacheKey × Entry)
  source : List Char
  lr_stack : List Nat
  deriving DecidableEq, Repr

/-- `HashMap::get`. -/
def cacheGet (k : CacheKey) : List (CacheKey × Entry) → Option Entry
  | [] => none
  | (k1, v) :: rest => if k1 = k then some v else cacheGet k rest

/-- Remove every binding of a key (at most one exists along the
`cacheInsert`/`cacheErase` interface). -/
def cacheErase (k : CacheKey) : List (CacheKey × Entry) → List (CacheKey × Entry)
  | [] => []
  | (k1, v) :: rest => if k1 = k then cacheErase k rest else (k1, v) :: cacheErase k rest

/-- `HashMap::insert` (replaces any previous binding). -/
def cacheInsert (k : CacheKey) (v : Entry) (m : List (CacheKey × Entry)) :
    List (CacheKey × Entry) :=
  (k, v) :: cacheErase k m

/-- `Context::new` (src/src/lib.rs lines 36-42), with the source already
materialized as a character sequence. -/
def Ctx.new (s : List Char) : Ctx :=
  { cache := [], source := s, lr_stack := [] }

/-- Deep embedding of the combinator tree.  Each Rust combinator value
`Parser { name, id, raw_body }` becomes a node carrying its id; the
`lazy` placeholder becomes a `ref` node resolved through a definition
environment (the single-assignment `OnceCell`). -/
inductive PNode where
  | satisfy (id : Nat) (name : String) (pred : Char → Bool)
  | map (id : Nat) (f : Val → Val) (p : PNode)
  | tryMap (id : Nat) (f : Val → Option Val) (p : PNode)
  | and (id : Nat) (p q : PNode)
  | many (id : Nat) (p : PNode)
  | opt (id : Nat) (p : PNode)
  | or (id : Nat) (p q : PNode)
  | ref (id : Nat)

/-- The per-combinator `ParserId`. -/
def nodeId : PNode → Nat
  | .satisfy i _ _ => i
  | .map i _ _ => i
  | .tryMap i _ _ => i
  | .and i _ _ => i
  | .many i _ => i
  | .opt i _ => i
  | .or i _ _ => i
  | .ref i => i

/-- Environment binding `lazy` placeholder ids to their installed real
combinators (the contents of the `OnceCell`s). -/
abbrev GEnv := List (Nat × PNode)

/-- Look up the installed parser of a `lazy` placeholder. -/
def envGet (i : Nat) : GEnv → Option PNode
  | [] => none
  | (j, n) :: rest => if j = i then some n else envGet i rest

/-- The raw body of `satisfy(name, predicate)` (src/src/lib.rs lines
252-269): read `source[pos]`, succeed one position further iff the
predicate holds, otherwise fail naming the parser and the offending
character or `EOF`. -/
def satisfyRun (name : String) (pred : Char → Bool) (pos : Nat) (ctx : Ctx) : PResult :=
  match ctx.source.get? pos with
  | some c1 =>
    if pred c1 then .ok (pos + 1) (.ch c1)
    else .err ⟨ctx.source, pos, "expected " ++ name ++ " got " ++ String.mk [c1]⟩
  | none => .err ⟨ctx.source, pos, "expected " ++ name ++ " got EOF"⟩

/-- Driver exit for parser id `i0` at `pos` (src/src/lib.rs lines
127-143): when the lr stack is empty or topped by `i0`, fix the best
result in the cache (popping the stack in the latter case); otherwise an
unrelated head is still being resolved and the entry is removed. -/
def parseExit (i0 pos : Nat) (bestRes : PResult) (ctx2 : Ctx) : PResult × Ctx :=
  match ctx2.lr_stack.head? with
  | some i =>
    if i = i0 then
      (bestRes,
        { ctx2 with
          cache := cacheInsert (i0, pos) (Entry.fixed bestRes) ctx2.cache,
          lr_stack := ctx2.lr_stack.tail })
    else
      (bestRes, { ctx2 with cache := cacheErase (i0, pos) ctx2.cache })
  | none =>
    (bestRes, { ctx2 with cache := cacheInsert (i0, pos) (Entry.fixed bestRes) ctx2.cache })

/-- Cache update after an improving grow-loop iteration (src/src/lib.rs
lines 109-121): record the new best as `InProgress` when the lr stack is
empty or topped by this parser's id; leave the cache alone otherwise. -/
def growCache (i0 : Nat) (key : CacheKey) (newBest : PResult) (ctx1 : Ctx) : Ctx :=
  match ctx1.lr_stack.head? with
  | some i =>
    if i = i0 then { ctx1 with cache := cacheInsert key (Entry.inProgress newBest) ctx1.cache }
    else ctx1
  | none => { ctx1 with cache := cacheInsert key (Entry.inProgress newBest) ctx1.cache }

/-- The mutually recursive pieces of the driver, unified so that the
interpreter is a single structural recursion on fuel:
`parseC` is `Parser::parse`, `growC` the driver's seed-growing `loop`
(src/src/lib.rs lines 101-125), `rawC` a raw combinator body, and
`manyC` the accumulation loop inside `many` (lines 210-213). -/
inductive Call where
  | parseC (env : GEnv) (n : PNode) (pos : Nat) (ctx : Ctx)
  | growC (env : GEnv) (n : PNode) (pos : Nat) (key : CacheKey)
      (bestPos : Nat) (bestRes : PResult) (ctx : Ctx)
  | rawC (env : GEnv) (n : PNode) (pos : Nat) (ctx : Ctx)
  | manyC (env : GEnv) (p : PNode) (pos : Nat) (acc : List Val) (ctx : Ctx)

/-- Fuel-indexed interpreter for src/src/lib.rs.

`parseC`: lines 64-144.  Probe the cache: an `Initial` hit is a
left-recursive reentry (push the id unless already on top, fail with
the placeholder error), `InProgress`/`Fixed` hits return the memo.  On a
miss, insert `Initial`, run the seed-growing loop, then either fix the
result (popping the lr stack when this frame is the head) or remove the
entry when another head's resolution is still in flight.

`growC`: repeat the raw body while it strictly improves (or turns the
initial failure into a same-position success), caching `InProgress`
updates unless an unrelated head is on top of the lr stack.

`rawC`: the raw closures of `satisfy` (lines 250-272), `map`, `try_map`,
`and`, `many`, `opt`, `or` (lines 146-247) and the `lazy` placeholder
delegation (lines 293-299).

`manyC`: the greedy `while let Ok` loop of `many`. -/
def eval : Nat → Call → Option (PResult × Ctx)
  | 0, _ => none
  | fuel + 1, c =>
    match c with
    | .parseC env n pos ctx =>
      let key : CacheKey := (nodeId n, pos)
      match cacheGet key ctx.cache with
      | some Entry.initial =>
        let ctx1 :=
          if ctx.lr_stack.head? = some (nodeId n) then ctx
          else { ctx with lr_stack := nodeId n :: ctx.lr_stack }
        some (.err ⟨ctx.source, pos, "Initial placeholder"⟩, ctx1)
      | some (Entry.inProgress r) => some (r, ctx)
      | some (Entry.fixed r) => some (r, ctx)
      | none =>
        let ctx1 := { ctx with cache := cacheInsert key Entry.initial ctx.cache }
        match eval fuel (.growC env n pos key pos
            (.err ⟨ctx1.source, pos, "Initial placeholder"⟩) ctx1) with
        | none => none
        | some (bestRes, ctx2) => some (parseExit (nodeId n) pos bestRes ctx2)
    | .growC env n pos key bestPos bestRes ctx =>
      match eval fuel (.rawC env n pos ctx) with
      | none => none
      | some (PResult.ok newPos v, ctx1) =>
        if bestPos < newPos ∨ (bestPos = newPos ∧ bestRes.isErr = true) then
          eval fuel (.growC env n pos key newPos (PResult.ok newPos v)
            (growCache (nodeId n) key (PResult.ok newPos v) ctx1))
        else
          some (bestRes, ctx1)
      | some (PResult.err _, ctx1) => some (bestRes, ctx1)
    | .rawC env n pos ctx =>
      match n with
      | .satisfy _ name pred => some (satisfyRun name pred pos ctx, ctx)
      | .map _ f p =>
        match eval fuel (.parseC env p pos ctx) with
        | none => none
        | some (PResult.ok p1 v, ctx1) => some (.ok p1 (f v), ctx1)
        | some (PResult.err e, ctx1) => some (.err e, ctx1)
      | .tryMap _ f p =>
        match eval fuel (.parseC env p pos ctx) with
        | none => none
        | some (PResult.ok p1 v, ctx1) =>
          match f v with
          | some v1 => some (.ok p1 v1, ctx1)
          | none => some (.err ⟨ctx1.source, p1, "try map failed: got None"⟩, ctx1)
        | some (PResult.err e, ctx1) => some (.err e, ctx1)
      | .and _ p q =>
        match eval fuel (.parseC env p pos ctx) with
        | none => none
        | some (PResult.err e, ctx1) => some (.err e, ctx1)
        | some (PResult.ok p1 v1, ctx1) =>
          match eval fuel (.parseC env q p1 ctx1) with
          | none => none
          | some (PResult.err e, ctx2) => some (.err e, ctx2)
          | some (PResult.ok p2 v2, ctx2) => some (.ok p2 (.pair v1 v2), ctx2)
      | .many _ p => eval fuel (.manyC env p pos [] ctx)
      | .opt _ p =>
        match eval fuel (.parseC env p pos ctx) with
        | none => none
        | some (PResult.ok p1 v, ctx1) => some (.ok p1 (.vsome v), ctx1)
        | some (PResult.err _, ctx1) => some (.ok pos .vnone, ctx1)
      | .or _ p q =>
        match eval fuel (.parseC env p pos ctx) with
        | none => none
        | some (PResult.ok p1 v, ctx1) => some (.ok p1 v, ctx1)
        | some (PResult.err e1, ctx1) =>
          match eval fuel (.parseC env q pos ctx1) with
          | none => none
          | some (PResult.ok p2 v, ctx2) => some (.ok p2 v, ctx2)
          | some (PResult.err e2, ctx2) =>
            if e1.pos ≥ e2.pos then some (.err e1, ctx2) else some (.err e2, ctx2)
      | .ref i =>
        match envGet i env with
        | some real => eval fuel (.parseC env real pos ctx)
        | none => none
    | .manyC env p pos acc ctx =>
      match eval fuel (.parseC env p pos ctx) with
      | none => none
      | some (PResult.ok newPos v, ctx1) => eval fuel (.manyC env p newPos (acc ++ [v]) ctx1)
      | some (PResult.err _, ctx1) => some (.ok pos (listVal acc), ctx1)

/-- `Parser::parse(pos, ctx)`. -/
def parse (fuel : Nat) (env : GEnv) (n : PNode) (pos : Nat) (ctx : Ctx) :
    Option (PResult × Ctx) :=
  eval fuel (.parseC env n pos ctx)

/-- One raw combinator body, outside the memoizing driver. -/
def rawEval (fuel : Nat) (env : GEnv) (n : PNode) (pos : Nat) (ctx : Ctx) :
    Option (PResult × Ctx) :=
  eval fuel (.rawC env n pos ctx)

/-- The seed-growing loop of the driver. -/
def growLoop (fuel : Nat) (env : GEnv) (n : PNode) (pos : Nat) (key : CacheKey)
    (bestPos : Nat) (bestRes : PResult) (ctx : Ctx) : Option (PResult × Ctx) :=
  eval fuel (.growC env n pos key bestPos bestRes ctx)

/-- The accumulation loop of `many`. -/
def manyLoop (fuel : Nat) (env : GEnv) (p : PNode) (pos : Nat) (acc : List Val)
    (ctx : Ctx) : Option (PResult × Ctx) :=
  eval fuel (.manyC env p pos acc ctx)

/-- `char(c) = satisfy(format!("{:?}", c)-style quoted name, |x| x == c)`
(src/src/lib.rs lines 278-280); `Char.ofNat 39` is the quote character. -/
def charP (i : Nat) (c : Char) : PNode :=
  .satisfy i (String.mk [Char.ofNat 39, c, Char.ofNat 39]) (fun x => x == c)

/-- `lazy(name, build)` (src/src/lib.rs lines 282-306): the placeholder's
id is fixed before `build` runs, `build` is applied once to the
placeholder itself, and its result is the binding to be installed in the
environment (the `OnceCell` assignment). -/
def lazyP (i : Nat) (build : PNode → PNode) : PNode × (Nat × PNode) :=
  (PNode.ref i, (i, build (PNode.ref i)))

/-- Normalization invariant of the memo table: every failure stored in an
`InProgress` or `Fixed` entry at key `(i, p)` is the placeholder error at
position `p`.  It holds of a fresh context and, as proved below, is
preserved by the driver; it reflects that the driver's grow loop never
stores a raw failure. -/
def ErrInv (ctx : Ctx) : Prop :=
  ∀ i p e,
    (cacheGet (i, p) ctx.cache = some (Entry.fixed (PResult.err e)) ∨
      cacheGet (i, p) ctx.cache = some (Entry.inProgress (PResult.err e))) →
    e = ⟨ctx.source, p, "Initial placeholder"⟩

/-! Concrete grammars and contexts used to evaluate the driver on the
spec's seed scenarios.  Parser ids are the values the global counter
would hand out during construction. -/

/-- Left branch first char of `char('a').and(char('b')).or(char('a').and(char('c')))`. -/
def c1a1 : PNode := charP 0 'a'

/-- `char('b')`. -/
def c1b : PNode := charP 1 'b'

/-- `char('a').and(char('b'))`. -/
def c1and1 : PNode := .and 2 c1a1 c1b

/-- The right branch's own `char('a')` (a distinct combinator instance). -/
def c1a2 : PNode := charP 3 'a'

/-- `char('c')`. -/
def c1c : PNode := charP 4 'c'

/-- `char('a').and(char('c'))`. -/
def c1and2 : PNode := .and 5 c1a2 c1c

/-- `char('a').and(char('b')).or(char('a').and(char('c')))`. -/
def c1or : PNode := .or 6 c1and1 c1and2

/-- `char('a').opt()`. -/
def optA : PNode := .opt 1 (charP 0 'a')

/-- `char('a').opt().many()`. -/
def manyOptA : PNode := .many 2 optA

/-- The context state right after `many`'s driver frame marks its own key
`(2, 0)` as `Initial` on the empty input. -/
def ctx3a : Ctx := { cache := [((2, 0), .initial)], source := [], lr_stack := [] }

/-- The context after the first loop iteration of `manyOptA` on the empty
input: the inner `opt` is memoized as a zero-advance success. -/
def ctxFix : Ctx :=
  { cache := [((1, 0), .fixed (.ok 0 .vnone)),
      ((0, 0), .fixed (.err ⟨[], 0, "Initial placeholder"⟩)),
      ((2, 0), .initial)],
    source := [], lr_stack := [] }

/-- Projection used by `andr`-style sequencing (`map(|(_, r)| r)`). -/
def projRight : Val → Val := fun v =>
  match v with
  | .pair _ b => b
  | x => x

/-- `char('a')` of the mutually recursive grammar `X = X 'a' / Y; Y = X`. -/
def lkCharA : PNode := charP 0 'a'

/-- `X.and(char('a'))` where `X` is the lazy placeholder with id 4. -/
def lkAnd : PNode := .and 1 (.ref 4) lkCharA

/-- `X.and(char('a')).map(right)`. -/
def lkMap : PNode := .map 2 projRight lkAnd

/-- `X.and(char('a')).map(right).or(Y)` where `Y` is the placeholder with id 5. -/
def lkOr : PNode := .or 3 lkMap (.ref 5)

/-- The installed lazy bindings: `X` resolves to the ordered choice, `Y`
resolves to (a clone of) `X`'s placeholder. -/
def lkEnv : GEnv := [(4, lkOr), (5, .ref 4)]

/-- `char('a')` of the direct left-recursive grammar `A = A 'a' / 'b'`. -/
def lrCharA : PNode := charP 2 'a'

/-- `A.and(char('a'))` where `A` is the lazy placeholder with id 1. -/
def lrAnd : PNode := .and 4 (.ref 1) lrCharA

/-- `char('b')` of the same grammar. -/
def gLcharB : PNode := charP 3 'b'

/-- `A.and(char('a')).map(right)`. -/
def gLmap : PNode := .map 5 projRight lrAnd

/-- The installed body of `A`: `A.and(char('a')).map(right).or(char('b'))`. -/
def gLor : PNode := .or 6 gLmap gLcharB

/-- The lazy binding of this grammar: `A` (id 1) resolves to `gLor`. -/
def gLenv : GEnv := [(1, gLor)]

/-- The context at the second invocation of the `A.and('a')` frame during
`parse` of `A` at 0 on `"ba"` from a fresh context: the `A`, choice and
map frames are marked `Initial`, the reentry has pushed head id 1, and
the seed has not yet grown. -/
def ctxT : Ctx :=
  { cache := [((5, 0), .initial), ((6, 0), .initial), ((1, 0), .initial)],
    source := ['b', 'a'], lr_stack := [1] }

/-- The same run one growth iteration later (the third invocation of the
same frame): `A`'s seed `'b'` is memoized as `InProgress` while head id 1
is still being resolved. -/
def ctxS : Ctx :=
  { cache := [((5, 0), .initial), ((6, 0), .initial),
      ((1, 0), .inProgress (.ok 1 (.ch 'b')))],
    source := ['b', 'a'], lr_stack := [1] }

/-- Context after `char('b')` fails (and is memoized) at 0 on `"a"`. -/
def ctxW1 : Ctx :=
  { cache := [((0, 0), .fixed (.err ⟨['a'], 0, "Initial placeholder"⟩))],
    source := ['a'], lr_stack := [] }

/-- Context after `char('b')` and then `char('c')` both fail at 0 on `"a"`. -/
def ctxW2 : Ctx :=
  { cache := [((1, 0), .fixed (.err ⟨['a'], 0, "Initial placeholder"⟩)),
      ((0, 0), .fixed (.err ⟨['a'], 0, "Initial placeholder"⟩))],
    source := ['a'], lr_stack := [] }

/-- Context after `char('a')` succeeds (and is memoized) at 0 on `"a"`. -/
def ctxA1 : Ctx :=
  { cache := [((0, 0), .fixed (.ok 1 (.ch 'a')))], source := ['a'], lr_stack := [] }

/-- A sample `build` closure for `lazy`: `|p| p.or(char('b'))`. -/
def buildW : PNode → PNode := fun p => PNode.or 9 p (charP 8 'b')

/-- The environment holding the parser installed by `lazy(7, buildW)`. -/
def lzEnvW : GEnv := [(7, buildW (PNode.ref 7))]

end Packrat

namespace Packrust

/-- `CacheKey = (ParserId, Pos)` of src/src/context.rs. -/
abbrev CacheKey := Nat × Nat

/-- The call-path / eviction-schedule state of `Context` in
src/src/context.rs (lines 6-12).  `call_path` keeps its most recently
pushed key at the head (`Vec::push`/`iter().rev()` walk from the back);
`pending_evictions` is the `FxHashMap<CacheKey, Vec<CacheKey>>` as an
association list.  The `cache`, `source` and `lr_stack` fields of the
source structure are not read or written by the operations modelled here
and are left out of the model. -/
structure Context where
  call_path : List CacheKey
  pending_evictions : List (CacheKey × List CacheKey)
  deriving DecidableEq, Repr

/-- `HashMap::get` on the eviction schedule. -/
def lookupPE (k : CacheKey) : List (CacheKey × List CacheKey) → Option (List CacheKey)
  | [] => none
  | (k1, v) :: rest => if k1 = k then some v else lookupPE k rest

/-- Drop a key's binding. -/
def erasePE (k : CacheKey) : List (CacheKey × List CacheKey) → List (CacheKey × List CacheKey)
  | [] => []
  | (k1, v) :: rest => if k1 = k then erasePE k rest else (k1, v) :: erasePE k rest

/-- Replace a key's binding (the effect of `entry(key).or_default()`
followed by in-place pushes). -/
def insertPE (k : CacheKey) (v : List CacheKey) (m : List (CacheKey × List CacheKey)) :
    List (CacheKey × List CacheKey) :=
  (k, v) :: erasePE k m

/-- `Context::push_call_path` (src/src/context.rs lines 29-31). -/
def push_call_path (ctx : Context) (key : CacheKey) : Context :=
  { ctx with call_path := key :: ctx.call_path }

/-- `Context::pop_call_path` (src/src/context.rs lines 33-36); the
`debug_assert_eq!` is a debug-only check with no release-mode effect. -/
def pop_call_path (ctx : Context) (_key : CacheKey) : Context :=
  { ctx with call_path := ctx.call_path.tail }

/-- The `for &ancestor in self.call_path.iter().rev()` walk of
`schedule_cache_eviction` (src/src/context.rs lines 41-47): collect keys
from the most recent end until the first occurrence of `key`. -/
def walk_dependents (key : CacheKey) : List CacheKey → List CacheKey
  | [] => []
  | a :: rest => if a = key then [] else a :: walk_dependents key rest

/-- `Context::schedule_cache_eviction` (src/src/context.rs lines 38-48). -/
def schedule_cache_eviction (ctx : Context) (key : CacheKey) : Context :=
  let dependents := (lookupPE key ctx.pending_evictions).getD []
  { ctx with
    pending_evictions :=
      insertPE key (dependents ++ walk_dependents key ctx.call_path) ctx.pending_evictions }

/-- The part of the call path below the first occurrence of `key` (the
keys the eviction walk skips). -/
def afterWalk (key : CacheKey) : List CacheKey → List CacheKey
  | [] => []
  | a :: rest => if a = key then rest else afterWalk key rest

end Packrust

namespace Packrat

theorem cacheGet_insert_self (k : CacheKey) (v : Entry) (m : List (CacheKey × Entry)) :
    cacheGet k (cacheInsert k v m) = some v := by
  simp [cacheInsert, cacheGet]

theorem cacheGet_erase_ne (k k1 : CacheKey) (m : List (CacheKey × Entry)) (h : k1 ≠ k) :
    cacheGet k (cacheErase k1 m) = cacheGet k m := by
  induction m with
  | nil => rfl
  | cons hd tl ih =>
    obtain ⟨k2, v⟩ := hd
    by_cases h2 : k2 = k1
    · subst h2
      simp [cacheErase, cacheGet, h, ih]
    · by_cases h3 : k2 = k
      · subst h3
        simp [cacheErase, cacheGet, h2]
      · simp [cacheErase, cacheGet, h2, h3, ih]

theorem cacheGet_erase_self (k : CacheKey) (m : List (CacheKey × Entry)) :
    cacheGet k (cacheErase k m) = none := by
  induction m with
  | nil => rfl
  | cons hd tl ih =>
    obtain ⟨k2, v⟩ := hd
    by_cases h2 : k2 = k
    · simp [cacheErase, h2, ih]
    · simp [cacheErase, cacheGet, h2, ih]

theorem cacheGet_insert_ne (k k1 : CacheKey) (v : Entry) (m : List (CacheKey × Entry))
    (h : k1 ≠ k) : cacheGet k (cacheInsert k1 v m) = cacheGet k m := by
  simp [cacheInsert, cacheGet, h, cacheGet_erase_ne k k1 m h]

/-- `ErrInv` only looks at the cache and the source. -/
theorem ErrInv.congr {ctx ctx' : Ctx} (h : ErrInv ctx) (hc : ctx'.cache = ctx.cache)
    (hs : ctx'.source = ctx.source) : ErrInv ctx' := by
  intro i p e he
  rw [hc] at he
  rw [hs]
  exact h i p e he

/-- Inserting an entry whose stored failure (if any) is the placeholder at
the key's position preserves the invariant. -/
theorem ErrInv.insert {ctx : Ctx} (h : ErrInv ctx) (k : CacheKey) (v : Entry)
    (hv : ∀ e, (v = Entry.fixed (PResult.err e) ∨ v = Entry.inProgress (PResult.err e)) →
      e = ⟨ctx.source, k.2, "Initial placeholder"⟩) :
    ErrInv { ctx with cache := cacheInsert k v ctx.cache } := by
  intro i p e he
  dsimp only at he ⊢
  by_cases hk : k = (i, p)
  · subst hk
    simp only [cacheGet_insert_self] at he
    rcases he with he | he
    · exact hv e (Or.inl (Option.some.inj he))
    · exact hv e (Or.inr (Option.some.inj he))
  · rw [cacheGet_insert_ne _ _ _ _ hk] at he
    exact h i p e he

theorem ErrInv.erase {ctx : Ctx} (h : ErrInv ctx) (k : CacheKey) :
    ErrInv { ctx with cache := cacheErase k ctx.cache } := by
  intro i p e he
  dsimp only at he ⊢
  by_cases hk : k = (i, p)
  · subst hk
    simp only [cacheGet_erase_self] at he
    rcases he with he | he <;> cases he
  · rw [cacheGet_erase_ne _ _ _ hk] at he
    exact h i p e he

/-- A fresh context satisfies the normalization invariant. -/
theorem ErrInv.new (s : List Char) : ErrInv (Ctx.new s) := by
  intro i p e he
  rcases he with he | he <;> cases he

/-- A probe that hits an `InProgress` entry returns the memo and leaves
the context untouched (src/src/lib.rs lines 82-84). -/
theorem parse_cached_inProgress (fuel : Nat) (env : GEnv) (n : PNode) (pos : Nat)
    (ctx : Ctx) (r : PResult)
    (h : cacheGet (nodeId n, pos) ctx.cache = some (Entry.inProgress r)) :
    parse (fuel + 1) env n pos ctx = some (r, ctx) := by
  simp [parse, eval, h]

/-- A probe that hits a `Fixed` entry returns the memo and leaves the
context untouched (src/src/lib.rs lines 85-87). -/
theorem parse_cached_fixed (fuel : Nat) (env : GEnv) (n : PNode) (pos : Nat)
    (ctx : Ctx) (r : PResult)
    (h : cacheGet (nodeId n, pos) ctx.cache = some (Entry.fixed r)) :
    parse (fuel + 1) env n pos ctx = some (r, ctx) := by
  simp [parse, eval, h]

end Packrat

namespace Packrat

/-! One-step characterizations of the interpreter, one per branch of the
source driver.  They let proofs follow a run without unfolding `eval`
beyond the step under consideration. -/

theorem eval_parseC_initial (g : Nat) (env : GEnv) (n : PNode) (pos : Nat) (ctx : Ctx)
    (h : cacheGet (nodeId n, pos) ctx.cache = some Entry.initial) :
    eval (g + 1) (.parseC env n pos ctx) =
      some (.err ⟨ctx.source, pos, "Initial placeholder"⟩,
        if ctx.lr_stack.head? = some (nodeId n) then ctx
        else { ctx with lr_stack := nodeId n :: ctx.lr_stack }) := by
  simp [eval, h]

theorem eval_parseC_miss_some (g : Nat) (env : GEnv) (n : PNode) (pos : Nat) (ctx : Ctx)
    (br : PResult) (ctx2 : Ctx)
    (hcg : cacheGet (nodeId n, pos) ctx.cache = none)
    (hg : eval g (.growC env n pos (nodeId n, pos) pos
      (.err ⟨ctx.source, pos, "Initial placeholder"⟩)
      { ctx with cache := cacheInsert (nodeId n, pos) Entry.initial ctx.cache }) =
      some (br, ctx2)) :
    eval (g + 1) (.parseC env n pos ctx) = some (parseExit (nodeId n) pos br ctx2) := by
  simp [eval, hcg, hg]

theorem eval_parseC_miss_none (g : Nat) (env : GEnv) (n : PNode) (pos : Nat) (ctx : Ctx)
    (hcg : cacheGet (nodeId n, pos) ctx.cache = none)
    (hg : eval g (.growC env n pos (nodeId n, pos) pos
      (.err ⟨ctx.source, pos, "Initial placeholder"⟩)
      { ctx with cache := cacheInsert (nodeId n, pos) Entry.initial ctx.cache }) = none) :
    eval (g + 1) (.parseC env n pos ctx) = none := by
  simp [eval, hcg, hg]

theorem eval_growC_none (g : Nat) (env : GEnv) (n : PNode) (pos : Nat) (key : CacheKey)
    (bp : Nat) (br : PResult) (ctx : Ctx)
    (hr : eval g (.rawC env n pos ctx) = none) :
    eval (g + 1) (.growC env n pos key bp br ctx) = none := by
  simp [eval, hr]

theorem eval_growC_err (g : Nat) (env : GEnv) (n : PNode) (pos : Nat) (key : CacheKey)
    (bp : Nat) (br : PResult) (ctx ctx1 : Ctx) (e : ParseError)
    (hr : eval g (.rawC env n pos ctx) = some (.err e, ctx1)) :
    eval (g + 1) (.growC env n pos key bp br ctx) = some (br, ctx1) := by
  simp [eval, hr]

theorem eval_growC_ok_improve (g : Nat) (env : GEnv) (n : PNode) (pos : Nat) (key : CacheKey)
    (bp : Nat) (br : PResult) (ctx ctx1 : Ctx) (newPos : Nat) (v : Val)
    (hr : eval g (.rawC env n pos ctx) = some (.ok newPos v, ctx1))
    (hc : bp < newPos ∨ (bp = newPos ∧ br.isErr = true)) :
    eval (g + 1) (.growC env n pos key bp br ctx) =
      eval g (.growC env n pos key newPos (.ok newPos v)
        (growCache (nodeId n) key (.ok newPos v) ctx1)) := by
  simp [eval, hr, hc]

theorem eval_growC_ok_stop (g : Nat) (env : GEnv) (n : PNode) (pos : Nat) (key : CacheKey)
    (bp : Nat) (br : PResult) (ctx ctx1 : Ctx) (newPos : Nat) (v : Val)
    (hr : eval g (.rawC env n pos ctx) = some (.ok newPos v, ctx1))
    (hc : ¬(bp < newPos ∨ (bp = newPos ∧ br.isErr = true))) :
    eval (g + 1) (.growC env n pos key bp br ctx) = some (br, ctx1) := by
  simp only [eval, hr]
  rw [if_neg hc]

theorem eval_rawC_satisfy (g : Nat) (env : GEnv) (i : Nat) (name : String)
    (pred : Char → Bool) (pos : Nat) (ctx : Ctx) :
    eval (g + 1) (.rawC env (.satisfy i name pred) pos ctx) =
      some (satisfyRun name pred pos ctx, ctx) := by
  simp [eval]

theorem eval_rawC_map_none (g : Nat) (env : GEnv) (i : Nat) (fv : Val → Val) (p : PNode)
    (pos : Nat) (ctx : Ctx) (hp : eval g (.parseC env p pos ctx) = none) :
    eval (g + 1) (.rawC env (.map i fv p) pos ctx) = none := by
  simp [eval, hp]

theorem eval_rawC_map_ok (g : Nat) (env : GEnv) (i : Nat) (fv : Val → Val) (p : PNode)
    (pos : Nat) (ctx ctx1 : Ctx) (p1 : Nat) (v : Val)
    (hp : eval g (.parseC env p pos ctx) = some (.ok p1 v, ctx1)) :
    eval (g + 1) (.rawC env (.map i fv p) pos ctx) = some (.ok p1 (fv v), ctx1) := by
  simp [eval, hp]

theorem eval_rawC_map_err (g : Nat) (env : GEnv) (i : Nat) (fv : Val → Val) (p : PNode)
    (pos : Nat) (ctx ctx1 : Ctx) (e : ParseError)
    (hp : eval g (.parseC env p pos ctx) = some (.err e, ctx1)) :
    eval (g + 1) (.rawC env (.map i fv p) pos ctx) = some (.err e, ctx1) := by
  simp [eval, hp]

theorem eval_rawC_and_none (g : Nat) (env : GEnv) (i : Nat) (p q : PNode)
    (pos : Nat) (ctx : Ctx) (hp : eval g (.parseC env p pos ctx) = none) :
    eval (g + 1) (.rawC env (.and i p q) pos ctx) = none := by
  simp [eval, hp]

theorem eval_rawC_and_err (g : Nat) (env : GEnv) (i : Nat) (p q : PNode)
    (pos : Nat) (ctx ctx1 : Ctx) (e : ParseError)
    (hp : eval g (.parseC env p pos ctx) = some (.err e, ctx1)) :
    eval (g + 1) (.rawC env (.and i p q) pos ctx) = some (.err e, ctx1) := by
  simp [eval, hp]

theorem eval_rawC_and_ok (g : Nat) (env : GEnv) (i : Nat) (p q : PNode)
    (pos : Nat) (ctx ctx1 : Ctx) (p1 : Nat) (v1 : Val)
    (hp : eval g (.parseC env p pos ctx) = some (.ok p1 v1, ctx1)) :
    eval (g + 1) (.rawC env (.and i p q) pos ctx) =
      match eval g (.parseC env q p1 ctx1) with
      | none => none
      | some (PResult.err e, ctx2) => some (.err e, ctx2)
      | some (PResult.ok p2 v2, ctx2) => some (.ok p2 (.pair v1 v2), ctx2) := by
  simp [eval, hp]

theorem eval_rawC_many (g : Nat) (env : GEnv) (i : Nat) (p : PNode) (pos : Nat) (ctx : Ctx) :
    eval (g + 1) (.rawC env (.many i p) pos ctx) = eval g (.manyC env p pos [] ctx) := by
  simp [eval]

theorem eval_rawC_opt_none (g : Nat) (env : GEnv) (i : Nat) (p : PNode)
    (pos : Nat) (ctx : Ctx) (hp : eval g (.parseC env p pos ctx) = none) :
    eval (g + 1) (.rawC env (.opt i p) pos ctx) = none := by
  simp [eval, hp]

theorem eval_rawC_opt_ok (g : Nat) (env : GEnv) (i : Nat) (p : PNode)
    (pos : Nat) (ctx ctx1 : Ctx) (p1 : Nat) (v : Val)
    (hp : eval g (.parseC env p pos ctx) = some (.ok p1 v, ctx1)) :
    eval (g + 1) (.rawC env (.opt i p) pos ctx) = some (.ok p1 (.vsome v), ctx1) := by
  simp [eval, hp]

theorem eval_rawC_opt_err (g : Nat) (env : GEnv) (i : Nat) (p : PNode)
    (pos : Nat) (ctx ctx1 : Ctx) (e : ParseError)
    (hp : eval g (.parseC env p pos ctx) = some (.err e, ctx1)) :
    eval (g + 1) (.rawC env (.opt i p) pos ctx) = some (.ok pos .vnone, ctx1) := by
  simp [eval, hp]

theorem eval_rawC_or_none (g : Nat) (env : GEnv) (i : Nat) (p q : PNode)
    (pos : Nat) (ctx : Ctx) (hp : eval g (.parseC env p pos ctx) = none) :
    eval (g + 1) (.rawC env (.or i p q) pos ctx) = none := by
  simp [eval, hp]

theorem eval_rawC_or_ok (g : Nat) (env : GEnv) (i : Nat) (p q : PNode)
    (pos : Nat) (ctx ctx1 : Ctx) (p1 : Nat) (v : Val)
    (hp : eval g (.parseC env p pos ctx) = some (.ok p1 v, ctx1)) :
    eval (g + 1) (.rawC env (.or i p q) pos ctx) = some (.ok p1 v, ctx1) := by
  simp [eval, hp]

theorem eval_rawC_or_err (g : Nat) (env : GEnv) (i : Nat) (p q : PNode)
    (pos : Nat) (ctx ctx1 : Ctx) (e1 : ParseError)
    (hp : eval g (.parseC env p pos ctx) = some (.err e1, ctx1)) :
    eval (g + 1) (.rawC env (.or i p q) pos ctx) =
      match eval g (.parseC env q pos ctx1) with
      | none => none
      | some (PResult.ok p2 v, ctx2) => some (.ok p2 v, ctx2)
      | some (PResult.err e2, ctx2) =>
        if e1.pos ≥ e2.pos then some (.err e1, ctx2) else some (.err e2, ctx2) := by
  simp [eval, hp]

theorem eval_rawC_tryMap_none (g : Nat) (env : GEnv) (i : Nat) (fv : Val → Option Val)
    (p : PNode) (pos : Nat) (ctx : Ctx) (hp : eval g (.parseC env p pos ctx) = none) :
    eval (g + 1) (.rawC env (.tryMap i fv p) pos ctx) = none := by
  simp [eval, hp]

theorem eval_rawC_tryMap_ok (g : Nat) (env : GEnv) (i : Nat) (fv : Val → Option Val)
    (p : PNode) (pos : Nat) (ctx ctx1 : Ctx) (p1 : Nat) (v : Val)
    (hp : eval g (.parseC env p pos ctx) = some (.ok p1 v, ctx1)) :
    eval (g + 1) (.rawC env (.tryMap i fv p) pos ctx) =
      some ((match fv v with
        | some v1 => PResult.ok p1 v1
        | none => PResult.err ⟨ctx1.source, p1, "try map failed: got None"⟩), ctx1) := by
  cases hfv : fv v <;> simp [eval, hp, hfv]

theorem eval_rawC_tryMap_err (g : Nat) (env : GEnv) (i : Nat) (fv : Val → Option Val)
    (p : PNode) (pos : Nat) (ctx ctx1 : Ctx) (e : ParseError)
    (hp : eval g (.parseC env p pos ctx) = some (.err e, ctx1)) :
    eval (g + 1) (.rawC env (.tryMap i fv p) pos ctx) = some (.err e, ctx1) := by
  simp [eval, hp]

theorem eval_rawC_ref (g : Nat) (env : GEnv) (i : Nat) (pos : Nat) (ctx : Ctx)
    (real : PNode) (he : envGet i env = some real) :
    eval (g + 1) (.rawC env (.ref i) pos ctx) = eval g (.parseC env real pos ctx) := by
  simp [eval, he]

theorem eval_rawC_ref_none (g : Nat) (env : GEnv) (i : Nat) (pos : Nat) (ctx : Ctx)
    (he : envGet i env = none) :
    eval (g + 1) (.rawC env (.ref i) pos ctx) = none := by
  simp [eval, he]

theorem eval_manyC_none (g : Nat) (env : GEnv) (p : PNode) (pos : Nat) (acc : List Val)
    (ctx : Ctx) (hp : eval g (.parseC env p pos ctx) = none) :
    eval (g + 1) (.manyC env p pos acc ctx) = none := by
  simp [eval, hp]

theorem eval_manyC_ok (g : Nat) (env : GEnv) (p : PNode) (pos : Nat) (acc : List Val)
    (ctx ctx1 : Ctx) (newPos : Nat) (v : Val)
    (hp : eval g (.parseC env p pos ctx) = some (.ok newPos v, ctx1)) :
    eval (g + 1) (.manyC env p pos acc ctx) =
      eval g (.manyC env p newPos (acc ++ [v]) ctx1) := by
  simp [eval, hp]

theorem eval_manyC_err (g : Nat) (env : GEnv) (p : PNode) (pos : Nat) (acc : List Val)
    (ctx ctx1 : Ctx) (e : ParseError)
    (hp : eval g (.parseC env p pos ctx) = some (.err e, ctx1)) :
    eval (g + 1) (.manyC env p pos acc ctx) = some (.ok pos (listVal acc), ctx1) := by
  simp [eval, hp]

end Packrat

namespace Packrat

/-- Fuel monotonicity: a run that completes within some budget returns the
same answer under any larger budget.  The fuel is a modelling artefact of
the embedding, so results about terminating runs are budget-independent. -/
theorem eval_mono : ∀ (fuel : Nat) (c : Call) (out : PResult × Ctx),
    eval fuel c = some out → eval (fuel + 1) c = some out := by
  intro fuel
  induction fuel with
  | zero => intro c out h; cases h
  | succ f ih =>
    intro c out h
    cases c with
    | parseC env n pos ctx =>
      cases hcg : cacheGet (nodeId n, pos) ctx.cache with
      | none =>
        cases hg : eval f (.growC env n pos (nodeId n, pos) pos
            (.err ⟨ctx.source, pos, "Initial placeholder"⟩)
            { ctx with cache := cacheInsert (nodeId n, pos) Entry.initial ctx.cache }) with
        | none => rw [eval_parseC_miss_none f env n pos ctx hcg hg] at h; cases h
        | some out1 =>
          obtain ⟨br, ctx2⟩ := out1
          rw [eval_parseC_miss_some f env n pos ctx br ctx2 hcg hg] at h
          rw [eval_parseC_miss_some (f + 1) env n pos ctx br ctx2 hcg (ih _ _ hg)]
          exact h
      | some entry =>
        cases entry with
        | initial =>
          rw [eval_parseC_initial f env n pos ctx hcg] at h
          rw [eval_parseC_initial (f + 1) env n pos ctx hcg]
          exact h
        | inProgress r => simp only [eval, hcg] at h ⊢; exact h
        | fixed r => simp only [eval, hcg] at h ⊢; exact h
    | growC env n pos key bestPos bestRes ctx =>
      cases hr : eval f (.rawC env n pos ctx) with
      | none => rw [eval_growC_none f env n pos key bestPos bestRes ctx hr] at h; cases h
      | some out1 =>
        obtain ⟨r1, ctx1⟩ := out1
        cases r1 with
        | err e =>
          rw [eval_growC_err f env n pos key bestPos bestRes ctx ctx1 e hr] at h
          rw [eval_growC_err (f + 1) env n pos key bestPos bestRes ctx ctx1 e (ih _ _ hr)]
          exact h
        | ok newPos v =>
          by_cases hc : bestPos < newPos ∨ (bestPos = newPos ∧ bestRes.isErr = true)
          · rw [eval_growC_ok_improve f env n pos key bestPos bestRes ctx ctx1 newPos v hr hc]
              at h
            rw [eval_growC_ok_improve (f + 1) env n pos key bestPos bestRes ctx ctx1 newPos v
              (ih _ _ hr) hc]
            exact ih _ _ h
          · rw [eval_growC_ok_stop f env n pos key bestPos bestRes ctx ctx1 newPos v hr hc] at h
            rw [eval_growC_ok_stop (f + 1) env n pos key bestPos bestRes ctx ctx1 newPos v
              (ih _ _ hr) hc]
            exact h
    | rawC env n pos ctx =>
      cases n with
      | satisfy i name pred => simp only [eval] at h ⊢; exact h
      | map i fv p =>
        cases hp : eval f (.parseC env p pos ctx) with
        | none => rw [eval_rawC_map_none f env i fv p pos ctx hp] at h; cases h
        | some out1 =>
          obtain ⟨r1, ctx1⟩ := out1
          cases r1 with
          | ok p1 v =>
            rw [eval_rawC_map_ok f env i fv p pos ctx ctx1 p1 v hp] at h
            rw [eval_rawC_map_ok (f + 1) env i fv p pos ctx ctx1 p1 v (ih _ _ hp)]
            exact h
          | err e =>
            rw [eval_rawC_map_err f env i fv p pos ctx ctx1 e hp] at h
            rw [eval_rawC_map_err (f + 1) env i fv p pos ctx ctx1 e (ih _ _ hp)]
            exact h
      | tryMap i fv p =>
        cases hp : eval f (.parseC env p pos ctx) with
        | none => rw [eval_rawC_tryMap_none f env i fv p pos ctx hp] at h; cases h
        | some out1 =>
          obtain ⟨r1, ctx1⟩ := out1
          cases r1 with
          | ok p1 v =>
            rw [eval_rawC_tryMap_ok f env i fv p pos ctx ctx1 p1 v hp] at h
            rw [eval_rawC_tryMap_ok (f + 1) env i fv p pos ctx ctx1 p1 v (ih _ _ hp)]
            exact h
          | err e =>
            rw [eval_rawC_tryMap_err f env i fv p pos ctx ctx1 e hp] at h
            rw [eval_rawC_tryMap_err (f + 1) env i fv p pos ctx ctx1 e (ih _ _ hp)]
            exact h
      | and i p q =>
        cases hp : eval f (.parseC env p pos ctx) with
        | none => rw [eval_rawC_and_none f env i p q pos ctx hp] at h; cases h
        | some out1 =>
          obtain ⟨r1, ctx1⟩ := out1
          cases r1 with
          | err e =>
            rw [eval_rawC_and_err f env i p q pos ctx ctx1 e hp] at h
            rw [eval_rawC_and_err (f + 1) env i p q pos ctx ctx1 e (ih _ _ hp)]
            exact h
          | ok p1 v1 =>
            rw [eval_rawC_and_ok f env i p q pos ctx ctx1 p1 v1 hp] at h
            rw [eval_rawC_and_ok (f + 1) env i p q pos ctx ctx1 p1 v1 (ih _ _ hp)]
            cases hq : eval f (.parseC env q p1 ctx1) with
            | none => rw [hq] at h; cases h
            | some out2 =>
              rw [ih _ _ hq]
              rw [hq] at h
              exact h
      | many i p =>
        rw [eval_rawC_many f env i p pos ctx] at h
        rw [eval_rawC_many (f + 1) env i p pos ctx]
        exact ih _ _ h
      | opt i p =>
        cases hp : eval f (.parseC env p pos ctx) with
        | none => rw [eval_rawC_opt_none f env i p pos ctx hp] at h; cases h
        | some out1 =>
          obtain ⟨r1, ctx1⟩ := out1
          cases r1 with
          | ok p1 v =>
            rw [eval_rawC_opt_ok f env i p pos ctx ctx1 p1 v hp] at h
            rw [eval_rawC_opt_ok (f + 1) env i p pos ctx ctx1 p1 v (ih _ _ hp)]
            exact h
          | err e =>
            rw [eval_rawC_opt_err f env i p pos ctx ctx1 e hp] at h
            rw [eval_rawC_opt_err (f + 1) env i p pos ctx ctx1 e (ih _ _ hp)]
            exact h
      | or i p q =>
        cases hp : eval f (.parseC env p pos ctx) with
        | none => rw [eval_rawC_or_none f env i p q pos ctx hp] at h; cases h
        | some out1 =>
          obtain ⟨r1, ctx1⟩ := out1
          cases r1 with
          | ok p1 v =>
            rw [eval_rawC_or_ok f env i p q pos ctx ctx1 p1 v hp] at h
            rw [eval_rawC_or_ok (f + 1) env i p q pos ctx ctx1 p1 v (ih _ _ hp)]
            exact h
          | err e1 =>
            rw [eval_rawC_or_err f env i p q pos ctx ctx1 e1 hp] at h
            rw [eval_rawC_or_err (f + 1) env i p q pos ctx ctx1 e1 (ih _ _ hp)]
            cases hq : eval f (.parseC env q pos ctx1) with
            | none => rw [hq] at h; cases h
            | some out2 =>
              rw [ih _ _ hq]
              rw [hq] at h
              exact h
      | ref i =>
        cases he : envGet i env with
        | none => rw [eval_rawC_ref_none f env i pos ctx he] at h; cases h
        | some real =>
          rw [eval_rawC_ref f env i pos ctx real he] at h
          rw [eval_rawC_ref (f + 1) env i pos ctx real he]
          exact ih _ _ h
    | manyC env p pos acc ctx =>
      cases hp : eval f (.parseC env p pos ctx) with
      | none => rw [eval_manyC_none f env p pos acc ctx hp] at h; cases h
      | some out1 =>
        obtain ⟨r1, ctx1⟩ := out1
        cases r1 with
        | ok newPos v =>
          rw [eval_manyC_ok f env p pos acc ctx ctx1 newPos v hp] at h
          rw [eval_manyC_ok (f + 1) env p pos acc ctx ctx1 newPos v (ih _ _ hp)]
          exact ih _ _ h
        | err e =>
          rw [eval_manyC_err f env p pos acc ctx ctx1 e hp] at h
          rw [eval_manyC_err (f + 1) env p pos acc ctx ctx1 e (ih _ _ hp)]
          exact h

/-- Budget independence for any pair of sufficient budgets. -/
theorem eval_le {fuel fuel' : Nat} (hle : fuel ≤ fuel') (c : Call) (out : PResult × Ctx)
    (h : eval fuel c = some out) : eval fuel' c = some out := by
  induction fuel' with
  | zero =>
    have h0 : fuel = 0 := Nat.le_zero.mp hle
    subst h0
    exact h
  | succ g ih =>
    rcases Nat.lt_or_ge fuel (g + 1) with hlt | hge
    · exact eval_mono g c out (ih (Nat.lt_succ_iff.mp hlt))
    · have heq : fuel = g + 1 := Nat.le_antisymm hle hge
      subst heq
      exact h

end Packrat

namespace Packrat

/-- `parseExit` returns the best result unchanged, preserves the memo
normalization and does not touch the source. -/
theorem parseExit_sound (i0 pos : Nat) (br : PResult) (ctx2 : Ctx)
    (hInv : ErrInv ctx2)
    (hbr : ∀ e, br = .err e → e = ⟨ctx2.source, pos, "Initial placeholder"⟩) :
    (parseExit i0 pos br ctx2).1 = br ∧ ErrInv (parseExit i0 pos br ctx2).2 ∧
      (parseExit i0 pos br ctx2).2.source = ctx2.source := by
  have hv : ∀ e,
      (Entry.fixed br = Entry.fixed (PResult.err e) ∨
        Entry.fixed br = Entry.inProgress (PResult.err e)) →
      e = ⟨ctx2.source, ((i0, pos) : CacheKey).2, "Initial placeholder"⟩ := by
    intro e he
    rcases he with he | he
    · cases br with
      | ok p v => cases he
      | err e1 => cases he; exact hbr e rfl
    · cases he
  cases hl : ctx2.lr_stack.head? with
  | none =>
    simp only [parseExit, hl]
    exact ⟨trivial, hInv.insert (i0, pos) (Entry.fixed br) hv, trivial⟩
  | some i =>
    by_cases hi : i = i0
    · simp only [parseExit, hl, if_pos hi]
      exact ⟨trivial, (hInv.insert (i0, pos) (Entry.fixed br) hv).congr rfl rfl, trivial⟩
    · simp only [parseExit, hl, if_neg hi]
      exact ⟨trivial, hInv.erase (i0, pos), trivial⟩

/-- `growCache` preserves the memo normalization and the source: the only
entry it may write is an `InProgress` success. -/
theorem growCache_sound (i0 : Nat) (key : CacheKey) (np : Nat) (v : Val) (ctx1 : Ctx)
    (hInv : ErrInv ctx1) :
    ErrInv (growCache i0 key (.ok np v) ctx1) ∧
      (growCache i0 key (.ok np v) ctx1).source = ctx1.source := by
  have hv : ∀ e,
      (Entry.inProgress (PResult.ok np v) = Entry.fixed (PResult.err e) ∨
        Entry.inProgress (PResult.ok np v) = Entry.inProgress (PResult.err e)) →
      e = ⟨ctx1.source, key.2, "Initial placeholder"⟩ := by
    intro e he
    rcases he with he | he <;> cases he
  cases hl : ctx1.lr_stack.head? with
  | none =>
    simp only [growCache, hl]
    exact ⟨hInv.insert key (Entry.inProgress (PResult.ok np v)) hv, trivial⟩
  | some i =>
    by_cases hi : i = i0
    · simp only [growCache, hl, if_pos hi]
      exact ⟨hInv.insert key (Entry.inProgress (PResult.ok np v)) hv, trivial⟩
    · simp only [growCache, hl, if_neg hi]
      exact ⟨hInv, trivial⟩

end Packrat

namespace Packrat

/-- Soundness of the driver with respect to the memo normalization: under
`ErrInv`, every run preserves the invariant and the source, and every
failure returned by `parse` (or produced as the grow loop's best result)
is the placeholder error at the entry position — the grow loop of
src/src/lib.rs (lines 94-125) discards raw failures, so the only failures
that escape a driver frame are its own placeholder. -/
theorem evalSound : ∀ fuel : Nat,
    (∀ env n pos ctx r ctx', ErrInv ctx →
      eval fuel (.parseC env n pos ctx) = some (r, ctx') →
      ErrInv ctx' ∧ ctx'.source = ctx.source ∧
        ∀ e, r = PResult.err e → e = ⟨ctx.source, pos, "Initial placeholder"⟩) ∧
    (∀ env n pos key bp br ctx r ctx', ErrInv ctx →
      (∀ e, br = PResult.err e → e = ⟨ctx.source, pos, "Initial placeholder"⟩) →
      eval fuel (.growC env n pos key bp br ctx) = some (r, ctx') →
      ErrInv ctx' ∧ ctx'.source = ctx.source ∧
        ∀ e, r = PResult.err e → e = ⟨ctx.source, pos, "Initial placeholder"⟩) ∧
    (∀ env n pos ctx r ctx', ErrInv ctx →
      eval fuel (.rawC env n pos ctx) = some (r, ctx') →
      ErrInv ctx' ∧ ctx'.source = ctx.source) ∧
    (∀ env p pos acc ctx r ctx', ErrInv ctx →
      eval fuel (.manyC env p pos acc ctx) = some (r, ctx') →
      ErrInv ctx' ∧ ctx'.source = ctx.source) := by
  intro fuel
  induction fuel with
  | zero =>
    refine ⟨?_, ?_, ?_, ?_⟩ <;> intros <;> rename_i h <;> cases h
  | succ f ih =>
    obtain ⟨ihP, ihG, ihR, ihM⟩ := ih
    refine ⟨?_, ?_, ?_, ?_⟩
    · -- parseC
      intro env n pos ctx r ctx' hInv h
      cases hcg : cacheGet (nodeId n, pos) ctx.cache with
      | some entry =>
        cases entry with
        | initial =>
          rw [eval_parseC_initial f env n pos ctx hcg] at h
          simp only [Option.some.injEq, Prod.mk.injEq] at h
          obtain ⟨h1, h2⟩ := h
          subst h2
          refine ⟨?_, ?_, ?_⟩
          · by_cases hc : ctx.lr_stack.head? = some (nodeId n)
            · rw [if_pos hc]; exact hInv
            · rw [if_neg hc]; exact hInv.congr rfl rfl
          · by_cases hc : ctx.lr_stack.head? = some (nodeId n)
            · rw [if_pos hc]
            · rw [if_neg hc]
          · intro e he
            rw [← h1] at he
            injection he with he1
            exact he1.symm
        | inProgress r0 =>
          simp only [eval, hcg, Option.some.injEq, Prod.mk.injEq] at h
          obtain ⟨h1, h2⟩ := h
          subst h2
          refine ⟨hInv, rfl, ?_⟩
          intro e he
          rw [he] at h1
          exact hInv (nodeId n) pos e (Or.inr (by rw [hcg, ← h1]))
        | fixed r0 =>
          simp only [eval, hcg, Option.some.injEq, Prod.mk.injEq] at h
          obtain ⟨h1, h2⟩ := h
          subst h2
          refine ⟨hInv, rfl, ?_⟩
          intro e he
          rw [he] at h1
          exact hInv (nodeId n) pos e (Or.inl (by rw [hcg, ← h1]))
      | none =>
        cases hg : eval f (.growC env n pos (nodeId n, pos) pos
            (.err ⟨ctx.source, pos, "Initial placeholder"⟩)
            { ctx with cache := cacheInsert (nodeId n, pos) Entry.initial ctx.cache }) with
        | none => rw [eval_parseC_miss_none f env n pos ctx hcg hg] at h; cases h
        | some out1 =>
          obtain ⟨br, ctx2⟩ := out1
          rw [eval_parseC_miss_some f env n pos ctx br ctx2 hcg hg] at h
          have hInv1 : ErrInv { ctx with cache := cacheInsert (nodeId n, pos) Entry.initial ctx.cache } := by
            refine hInv.insert (nodeId n, pos) Entry.initial ?_
            intro e he
            rcases he with he | he <;> cases he
          have hbr1 : ∀ e, PResult.err (⟨ctx.source, pos, "Initial placeholder"⟩ : ParseError)
              = PResult.err e →
              e = (⟨ctx.source, pos, "Initial placeholder"⟩ : ParseError) := by
            intro e he
            injection he with he1
            exact he1.symm
          obtain ⟨hInv2, hsrc2, hshape2⟩ := ihG _ _ _ _ _ _ _ _ _ hInv1 hbr1 hg
          have hshape2' : ∀ e, br = PResult.err e →
              e = ⟨ctx2.source, pos, "Initial placeholder"⟩ := by
            intro e he
            rw [hshape2 e he]
            rw [hsrc2]
          obtain ⟨hpe1, hpe2, hpe3⟩ := parseExit_sound (nodeId n) pos br ctx2 hInv2 hshape2'
          have hpair := Option.some.inj h
          have h1 : (parseExit (nodeId n) pos br ctx2).1 = r := congrArg Prod.fst hpair
          have h2 : (parseExit (nodeId n) pos br ctx2).2 = ctx' := congrArg Prod.snd hpair
          refine ⟨h2 ▸ hpe2, ?_, ?_⟩
          · rw [← h2, hpe3, hsrc2]
          · intro e he
            have hbe : br = PResult.err e := by rw [← he, ← h1, hpe1]
            exact hshape2 e hbe
    · -- growC
      intro env n pos key bp br ctx r ctx' hInv hbr h
      cases hr : eval f (.rawC env n pos ctx) with
      | none => rw [eval_growC_none f env n pos key bp br ctx hr] at h; cases h
      | some out1 =>
        obtain ⟨r1, ctx1⟩ := out1
        obtain ⟨hInv1, hsrc1⟩ := ihR _ _ _ _ _ _ hInv hr
        cases r1 with
        | err e =>
          rw [eval_growC_err f env n pos key bp br ctx ctx1 e hr] at h
          simp only [Option.some.injEq, Prod.mk.injEq] at h
          obtain ⟨h1, h2⟩ := h
          subst h2
          exact ⟨hInv1, hsrc1, fun e1 he1 => hbr e1 (h1 ▸ he1)⟩
        | ok newPos v =>
          by_cases hc : bp < newPos ∨ (bp = newPos ∧ br.isErr = true)
          · rw [eval_growC_ok_improve f env n pos key bp br ctx ctx1 newPos v hr hc] at h
            obtain ⟨hInvG, hsrcG⟩ := growCache_sound (nodeId n) key newPos v ctx1 hInv1
            have hbrG : ∀ e, PResult.ok newPos v = PResult.err e →
                e = ⟨(growCache (nodeId n) key (PResult.ok newPos v) ctx1).source,
                  pos, "Initial placeholder"⟩ := by
              intro e he
              cases he
            obtain ⟨hInv2, hsrc2, hshape2⟩ := ihG _ _ _ _ _ _ _ _ _ hInvG hbrG h
            refine ⟨hInv2, ?_, ?_⟩
            · rw [hsrc2, hsrcG, hsrc1]
            · intro e he
              have h3 := hshape2 e he
              rwa [hsrcG, hsrc1] at h3
          · rw [eval_growC_ok_stop f env n pos key bp br ctx ctx1 newPos v hr hc] at h
            simp only [Option.some.injEq, Prod.mk.injEq] at h
            obtain ⟨h1, h2⟩ := h
            subst h2
            exact ⟨hInv1, hsrc1, fun e1 he1 => hbr e1 (h1 ▸ he1)⟩
    · -- rawC
      intro env n pos ctx r ctx' hInv h
      cases n with
      | satisfy i name pred =>
        rw [eval_rawC_satisfy f env i name pred pos ctx] at h
        simp only [Option.some.injEq, Prod.mk.injEq] at h
        obtain ⟨h1, h2⟩ := h
        subst h2
        exact ⟨hInv, rfl⟩
      | map i fv p =>
        cases hp : eval f (.parseC env p pos ctx) with
        | none => rw [eval_rawC_map_none f env i fv p pos ctx hp] at h; cases h
        | some out1 =>
          obtain ⟨r1, ctx1⟩ := out1
          obtain ⟨hInv1, hsrc1, _⟩ := ihP _ _ _ _ _ _ hInv hp
          cases r1 with
          | ok p1 v =>
            rw [eval_rawC_map_ok f env i fv p pos ctx ctx1 p1 v hp] at h
            simp only [Option.some.injEq, Prod.mk.injEq] at h
            obtain ⟨h1, h2⟩ := h
            subst h2
            exact ⟨hInv1, hsrc1⟩
          | err e =>
            rw [eval_rawC_map_err f env i fv p pos ctx ctx1 e hp] at h
            simp only [Option.some.injEq, Prod.mk.injEq] at h
            obtain ⟨h1, h2⟩ := h
            subst h2
            exact ⟨hInv1, hsrc1⟩
      | tryMap i fv p =>
        cases hp : eval f (.parseC env p pos ctx) with
        | none => rw [eval_rawC_tryMap_none f env i fv p pos ctx hp] at h; cases h
        | some out1 =>
          obtain ⟨r1, ctx1⟩ := out1
          obtain ⟨hInv1, hsrc1, _⟩ := ihP _ _ _ _ _ _ hInv hp
          cases r1 with
          | ok p1 v =>
            rw [eval_rawC_tryMap_ok f env i fv p pos ctx ctx1 p1 v hp] at h
            simp only [Option.some.injEq, Prod.mk.injEq] at h
            obtain ⟨h1, h2⟩ := h
            subst h2
            exact ⟨hInv1, hsrc1⟩
          | err e =>
            rw [eval_rawC_tryMap_err f env i fv p pos ctx ctx1 e hp] at h
            simp only [Option.some.injEq, Prod.mk.injEq] at h
            obtain ⟨h1, h2⟩ := h
            subst h2
            exact ⟨hInv1, hsrc1⟩
      | and i p q =>
        cases hp : eval f (.parseC env p pos ctx) with
        | none => rw [eval_rawC_and_none f env i p q pos ctx hp] at h; cases h
        | some out1 =>
          obtain ⟨r1, ctx1⟩ := out1
          obtain ⟨hInv1, hsrc1, _⟩ := ihP _ _ _ _ _ _ hInv hp
          cases r1 with
          | err e =>
            rw [eval_rawC_and_err f env i p q pos ctx ctx1 e hp] at h
            simp only [Option.some.injEq, Prod.mk.injEq] at h
            obtain ⟨h1, h2⟩ := h
            subst h2
            exact ⟨hInv1, hsrc1⟩
          | ok p1 v1 =>
            rw [eval_rawC_and_ok f env i p q pos ctx ctx1 p1 v1 hp] at h
            cases hq : eval f (.parseC env q p1 ctx1) with
            | none => simp only [hq] at h; cases h
            | some out2 =>
              obtain ⟨r2, ctx2⟩ := out2
              obtain ⟨hInv2, hsrc2, _⟩ := ihP _ _ _ _ _ _ hInv1 hq
              cases r2 with
              | ok p2 v2 =>
                simp only [hq, Option.some.injEq, Prod.mk.injEq] at h
                obtain ⟨h1, h2⟩ := h
                subst h2
                exact ⟨hInv2, by rw [hsrc2, hsrc1]⟩
              | err e =>
                simp only [hq, Option.some.injEq, Prod.mk.injEq] at h
                obtain ⟨h1, h2⟩ := h
                subst h2
                exact ⟨hInv2, by rw [hsrc2, hsrc1]⟩
      | many i p =>
        rw [eval_rawC_many f env i p pos ctx] at h
        exact ihM _ _ _ _ _ _ _ hInv h
      | opt i p =>
        cases hp : eval f (.parseC env p pos ctx) with
        | none => rw [eval_rawC_opt_none f env i p pos ctx hp] at h; cases h
        | some out1 =>
          obtain ⟨r1, ctx1⟩ := out1
          obtain ⟨hInv1, hsrc1, _⟩ := ihP _ _ _ _ _ _ hInv hp
          cases r1 with
          | ok p1 v =>
            rw [eval_rawC_opt_ok f env i p pos ctx ctx1 p1 v hp] at h
            simp only [Option.some.injEq, Prod.mk.injEq] at h
            obtain ⟨h1, h2⟩ := h
            subst h2
            exact ⟨hInv1, hsrc1⟩
          | err e =>
            rw [eval_rawC_opt_err f env i p pos ctx ctx1 e hp] at h
            simp only [Option.some.injEq, Prod.mk.injEq] at h
            obtain ⟨h1, h2⟩ := h
            subst h2
            exact ⟨hInv1, hsrc1⟩
      | or i p q =>
        cases hp : eval f (.parseC env p pos ctx) with
        | none => rw [eval_rawC_or_none f env i p q pos ctx hp] at h; cases h
        | some out1 =>
          obtain ⟨r1, ctx1⟩ := out1
          obtain ⟨hInv1, hsrc1, _⟩ := ihP _ _ _ _ _ _ hInv hp
          cases r1 with
          | ok p1 v =>
            rw [eval_rawC_or_ok f env i p q pos ctx ctx1 p1 v hp] at h
            simp only [Option.some.injEq, Prod.mk.injEq] at h
            obtain ⟨h1, h2⟩ := h
            subst h2
            exact ⟨hInv1, hsrc1⟩
          | err e1 =>
            rw [eval_rawC_or_err f env i p q pos ctx ctx1 e1 hp] at h
            cases hq : eval f (.parseC env q pos ctx1) with
            | none => simp only [hq] at h; cases h
            | some out2 =>
              obtain ⟨r2, ctx2⟩ := out2
              obtain ⟨hInv2, hsrc2, _⟩ := ihP _ _ _ _ _ _ hInv1 hq
              cases r2 with
              | ok p2 v =>
                simp only [hq, Option.some.injEq, Prod.mk.injEq] at h
                obtain ⟨h1, h2⟩ := h
                subst h2
                exact ⟨hInv2, by rw [hsrc2, hsrc1]⟩
              | err e2 =>
                simp only [hq] at h
                by_cases hcmp : e1.pos ≥ e2.pos
                · rw [if_pos hcmp] at h
                  simp only [Option.some.injEq, Prod.mk.injEq] at h
                  obtain ⟨h1, h2⟩ := h
                  subst h2
                  exact ⟨hInv2, by rw [hsrc2, hsrc1]⟩
                · rw [if_neg hcmp] at h
                  simp only [Option.some.injEq, Prod.mk.injEq] at h
                  obtain ⟨h1, h2⟩ := h
                  subst h2
                  exact ⟨hInv2, by rw [hsrc2, hsrc1]⟩
      | ref i =>
        cases he : envGet i env with
        | none => rw [eval_rawC_ref_none f env i pos ctx he] at h; cases h
        | some real =>
          rw [eval_rawC_ref f env i pos ctx real he] at h
          obtain ⟨hInv1, hsrc1, _⟩ := ihP _ _ _ _ _ _ hInv h
          exact ⟨hInv1, hsrc1⟩
    · -- manyC
      intro env p pos acc ctx r ctx' hInv h
      cases hp : eval f (.parseC env p pos ctx) with
      | none => rw [eval_manyC_none f env p pos acc ctx hp] at h; cases h
      | some out1 =>
        obtain ⟨r1, ctx1⟩ := out1
        obtain ⟨hInv1, hsrc1, _⟩ := ihP _ _ _ _ _ _ hInv hp
        cases r1 with
        | ok newPos v =>
          rw [eval_manyC_ok f env p pos acc ctx ctx1 newPos v hp] at h
          obtain ⟨hInv2, hsrc2⟩ := ihM _ _ _ _ _ _ _ hInv1 h
          exact ⟨hInv2, by rw [hsrc2, hsrc1]⟩
        | err e =>
          rw [eval_manyC_err f env p pos acc ctx ctx1 e hp] at h
          simp only [Option.some.injEq, Prod.mk.injEq] at h
          obtain ⟨h1, h2⟩ := h
          subst h2
          exact ⟨hInv1, hsrc1⟩

end Packrat

namespace Packrat

/-- Once the inner `opt` is memoized as a zero-advance success, the `many`
loop re-reads the same memo forever: no fuel bound suffices for the loop
to exit. -/
theorem manyLoop_diverges : ∀ (f : Nat) (acc : List Val),
    eval f (.manyC [] optA 0 acc ctxFix) = none := by
  intro f
  induction f with
  | zero => intro acc; rfl
  | succ g ih =>
    intro acc
    cases g with
    | zero => rfl
    | succ h =>
      have hp : eval (h + 1) (.parseC [] optA 0 ctxFix) = some (.ok 0 .vnone, ctxFix) :=
        parse_cached_fixed h [] optA 0 ctxFix (.ok 0 .vnone) (by decide)
      rw [eval_manyC_ok (h + 1) [] optA 0 acc ctxFix ctxFix 0 .vnone hp]
      exact ih (acc ++ [.vnone])

end Packrat

namespace Packrust

/-- The eviction walk splits the call path at the first occurrence of the
scheduled key: everything the walk collects lies strictly before that
occurrence (was pushed strictly after it), and the key itself is never
collected. -/
theorem walk_afterWalk_split (key : CacheKey) :
    ∀ path : List CacheKey, key ∈ path →
      path = walk_dependents key path ++ key :: afterWalk key path ∧
        key ∉ walk_dependents key path := by
  intro path
  induction path with
  | nil => intro hmem; cases hmem
  | cons a rest ih =>
    intro hmem
    by_cases ha : a = key
    · subst ha
      constructor
      · simp [walk_dependents, afterWalk]
      · simp [walk_dependents]
    · have hmem1 : key ∈ rest := by
        rcases List.mem_cons.mp hmem with h | h
        · exact absurd h.symm ha
        · exact h
      obtain ⟨hsplit, hnot⟩ := ih hmem1
      constructor
      · simp only [walk_dependents, afterWalk, if_neg ha, List.cons_append]
        exact congrArg (List.cons a) hsplit
      · simp only [walk_dependents, if_neg ha]
        intro hk
        rcases List.mem_cons.mp hk with h | h
        · exact ha h.symm
        · exact hnot h

theorem lookupPE_insert_self (k : CacheKey) (v : List CacheKey)
    (m : List (CacheKey × List CacheKey)) : lookupPE k (insertPE k v m) = some v := by
  simp [insertPE, lookupPE]

end Packrust

namespace Packrat

/-- Claim C1: the spec says a failed run reports the deepest failure along
the chosen path, and that `char('a').and(char('b')).or(char('a').and(char('c')))`
on `"ad"` fails at position 1 with a reason referencing `'c'`.  The code
disagrees: the driver's grow loop (src/src/lib.rs lines 101-125) discards
the raw body's failure, so the run fails at the entry position 0 with the
reason `"Initial placeholder"` — neither the furthest position nor any
reason from a sub-parse survives. -/
theorem claim_C1_furthest_failure :
    (parse 30 [] c1or 0 (Ctx.new ['a', 'd'])).map Prod.fst =
      some (.err ⟨['a', 'd'], 0, "Initial placeholder"⟩) := by
  decide

/-- Claim C2: `p.or(q)` tries `p` at `pos`, on failure tries `q` from the
same original `pos` (the hypotheses mirror this), and on double failure
returns the failure with the greater position, the right child's on a
tie.  In this driver every failure a `parse` call returns is the
placeholder error at its entry position, so the two failures tie and are
equal as values; the returned failure is the right child's (and equally
the left's, which is what line 243 of src/src/lib.rs literally picks). -/
theorem claim_C2_or_choice (fuel : Nat) (env : GEnv) (i : Nat) (p q : PNode) (pos : Nat)
    (ctx ctx1 ctx2 : Ctx) (e1 e2 : ParseError)
    (hInv : ErrInv ctx)
    (hp : parse fuel env p pos ctx = some (.err e1, ctx1))
    (hq : parse fuel env q pos ctx1 = some (.err e2, ctx2)) :
    rawEval (fuel + 1) env (.or i p q) pos ctx = some (.err e2, ctx2) ∧
      e2.pos = max e1.pos e2.pos ∧ e1 = e2 := by
  obtain ⟨hInv1, hsrc1, hsh1⟩ := (evalSound fuel).1 env p pos ctx _ _ hInv hp
  obtain ⟨_, _, hsh2⟩ := (evalSound fuel).1 env q pos ctx1 _ _ hInv1 hq
  have he1 : e1 = ⟨ctx.source, pos, "Initial placeholder"⟩ := hsh1 e1 rfl
  have he2 : e2 = ⟨ctx1.source, pos, "Initial placeholder"⟩ := hsh2 e2 rfl
  have he12 : e1 = e2 := by rw [he1, he2, hsrc1]
  refine ⟨?_, by rw [he12, max_self], he12⟩
  have hq1 : eval fuel (.parseC env q pos ctx1) = some (.err e2, ctx2) := hq
  have horr := eval_rawC_or_err fuel env i p q pos ctx ctx1 e1 hp
  rw [show rawEval (fuel + 1) env (.or i p q) pos ctx =
    eval (fuel + 1) (.rawC env (.or i p q) pos ctx) from rfl, horr]
  simp only [hq1]
  rw [if_pos (le_of_eq (congrArg ParseError.pos he12.symm))]
  rw [he12]

/-- Witness for claim C2 at `char('b').or(char('c'))` on `"a"`. -/
theorem claim_C2_or_choice_witness :
    rawEval 6 [] (.or 2 (charP 0 'b') (charP 1 'c')) 0 (Ctx.new ['a']) =
      some (.err ⟨['a'], 0, "Initial placeholder"⟩, ctxW2) ∧
      (⟨['a'], 0, "Initial placeholder"⟩ : ParseError).pos =
        max (⟨['a'], 0, "Initial placeholder"⟩ : ParseError).pos
          (⟨['a'], 0, "Initial placeholder"⟩ : ParseError).pos ∧
      (⟨['a'], 0, "Initial placeholder"⟩ : ParseError) =
        (⟨['a'], 0, "Initial placeholder"⟩ : ParseError) :=
  claim_C2_or_choice 5 [] 2 (charP 0 'b') (charP 1 'c') 0 (Ctx.new ['a']) ctxW1 ctxW2
    ⟨['a'], 0, "Initial placeholder"⟩ ⟨['a'], 0, "Initial placeholder"⟩
    (ErrInv.new ['a']) (by decide) (by decide)

/-- Claim C3: the spec requires `p.many()` to terminate on every input,
ending the repetition on a zero-advance success.  The code has no such
guard: for `char('a').opt().many()` on the empty input the inner `opt`
succeeds without advancing, its result is memoized, and the `while let
Ok` loop of `many` (src/src/lib.rs lines 210-213) re-reads the same memo
forever — no fuel bound suffices for the run to return. -/
theorem claim_C3_many_nonterminating : ∀ fuel : Nat,
    parse fuel [] manyOptA 0 (Ctx.new []) = none := by
  intro fuel
  rcases Nat.lt_or_ge fuel 14 with hf | hf
  · exact (by decide : ∀ f, f < 14 → parse f [] manyOptA 0 (Ctx.new []) = none) fuel hf
  · obtain ⟨g, rfl⟩ : ∃ g, fuel = g + 14 := ⟨fuel - 14, by omega⟩
    have h1 : eval (g + 10) (.parseC [] optA 0 ctx3a) = some (.ok 0 .vnone, ctxFix) :=
      eval_le (by omega) _ _
        (by decide : eval 10 (.parseC [] optA 0 ctx3a) = some (.ok 0 .vnone, ctxFix))
    have h2 : eval (g + 10 + 1) (.manyC [] optA 0 [] ctx3a) = none := by
      rw [eval_manyC_ok (g + 10) [] optA 0 [] ctx3a ctxFix 0 .vnone h1]
      exact manyLoop_diverges (g + 10) [Val.vnone]
    have h3 : eval (g + 10 + 1 + 1) (.rawC [] manyOptA 0 ctx3a) = none := by
      rw [show manyOptA = PNode.many 2 optA from rfl,
        eval_rawC_many (g + 10 + 1) [] 2 optA 0 ctx3a]
      exact h2
    have h4 : eval (g + 10 + 1 + 1 + 1) (.growC [] manyOptA 0 (2, 0) 0
        (.err ⟨[], 0, "Initial placeholder"⟩) ctx3a) = none :=
      eval_growC_none (g + 10 + 1 + 1) [] manyOptA 0 (2, 0) 0 _ ctx3a h3
    exact eval_parseC_miss_none (g + 10 + 1 + 1 + 1) [] manyOptA 0 (Ctx.new []) rfl h4

/-- Claim C4: the spec's invariant says a terminating `parse` call leaves
`call_path` and `lr_stack` as they were on entry.  The driver in
src/src/lib.rs maintains no `call_path` at all, and it does not restore
`lr_stack`: with the indirect grammar `X = X 'a' / Y; Y = X` on the empty
input, a fresh run of `Y` pushes `X`'s id at the reentrant probe and the
only frame that could pop it exits while `Y`'s id sits on top, so the run
returns with `lr_stack = [4]` although it started from `[]`. -/
theorem claim_C4_lr_stack_leak :
    parse 40 lkEnv (.ref 5) 0 (Ctx.new []) =
      some (.err ⟨[], 0, "Initial placeholder"⟩,
        { cache := [((5, 0), .fixed (.err ⟨[], 0, "Initial placeholder"⟩))],
          source := [], lr_stack := [4] }) ∧
    (Ctx.new []).lr_stack = [] := by
  decide

/-- Claim C5 (amended): on exit of a driver call that began with a cache
miss, the entry at its key is `Fixed` with the returned result whenever
the lr stack is empty or topped by this parser's id; otherwise (another
head still in flight, src/src/lib.rs lines 139-141) the entry has been
removed. -/
theorem claim_C5_exit_discipline (fuel : Nat) (env : GEnv) (n : PNode) (pos : Nat)
    (ctx : Ctx) (r : PResult) (ctx' : Ctx)
    (hmiss : cacheGet (nodeId n, pos) ctx.cache = none)
    (h : parse (fuel + 1) env n pos ctx = some (r, ctx')) :
    cacheGet (nodeId n, pos) ctx'.cache = some (Entry.fixed r) ∨
      (cacheGet (nodeId n, pos) ctx'.cache = none ∧ ctx'.lr_stack ≠ [] ∧
        ctx'.lr_stack.head? ≠ some (nodeId n)) := by
  cases hg : eval fuel (.growC env n pos (nodeId n, pos) pos
      (.err ⟨ctx.source, pos, "Initial placeholder"⟩)
      { ctx with cache := cacheInsert (nodeId n, pos) Entry.initial ctx.cache }) with
  | none =>
    rw [show parse (fuel + 1) env n pos ctx = eval (fuel + 1) (.parseC env n pos ctx) from rfl,
      eval_parseC_miss_none fuel env n pos ctx hmiss hg] at h
    cases h
  | some out1 =>
    obtain ⟨br, ctx2⟩ := out1
    rw [show parse (fuel + 1) env n pos ctx = eval (fuel + 1) (.parseC env n pos ctx) from rfl,
      eval_parseC_miss_some fuel env n pos ctx br ctx2 hmiss hg] at h
    have hpair := Option.some.inj h
    cases hl : ctx2.lr_stack.head? with
    | none =>
      simp only [parseExit, hl] at hpair
      rw [Prod.mk.injEq] at hpair
      obtain ⟨hr1, hc1⟩ := hpair
      subst hc1
      subst hr1
      left
      exact cacheGet_insert_self (nodeId n, pos) (Entry.fixed br) ctx2.cache
    | some i =>
      by_cases hi : i = nodeId n
      · simp only [parseExit, hl, if_pos hi] at hpair
        rw [Prod.mk.injEq] at hpair
        obtain ⟨hr1, hc1⟩ := hpair
        subst hc1
        subst hr1
        left
        exact cacheGet_insert_self (nodeId n, pos) (Entry.fixed br) ctx2.cache
      · simp only [parseExit, hl, if_neg hi] at hpair
        rw [Prod.mk.injEq] at hpair
        obtain ⟨hr1, hc1⟩ := hpair
        subst hc1
        right
        refine ⟨cacheGet_erase_self (nodeId n, pos) ctx2.cache, ?_, ?_⟩
        · intro hnil
          rw [show ({ ctx2 with cache := cacheErase (nodeId n, pos) ctx2.cache } : Ctx).lr_stack
            = ctx2.lr_stack from rfl] at hnil
          rw [hnil] at hl
          cases hl
        · rw [show ({ ctx2 with cache := cacheErase (nodeId n, pos) ctx2.cache } : Ctx).lr_stack
            = ctx2.lr_stack from rfl, hl]
          intro hcon
          exact hi (Option.some.inj hcon)

/-- Witness for the amended claim C5: `char('a')` on `"a"` from a fresh
context exits with its entry `Fixed`. -/
theorem claim_C5_exit_discipline_witness :
    cacheGet (nodeId (charP 0 'a'), 0) ctxA1.cache =
        some (Entry.fixed (.ok 1 (.ch 'a'))) ∨
      (cacheGet (nodeId (charP 0 'a'), 0) ctxA1.cache = none ∧ ctxA1.lr_stack ≠ [] ∧
        ctxA1.lr_stack.head? ≠ some (nodeId (charP 0 'a'))) :=
  claim_C5_exit_discipline 9 [] (charP 0 'a') 0 (Ctx.new ['a']) (.ok 1 (.ch 'a')) ctxA1
    (by decide) (by decide)

/-- Counterexample to claim C5 as stated: in a run of the left-recursive
grammar `A = A 'a' / 'b'` on `"ba"`, the sequencing frame `A.and('a')`
(key `(4, 0)`) exits while head id 1 is still being resolved; its cache
entry is removed, not `Resolved` — the final context equals the entry
context `ctxT`, which holds no entry at `(4, 0)` and still shows the
`Initial` marker of the in-flight head. -/
theorem claim_C5_counterexample :
    parse 20 gLenv lrAnd 0 ctxT = some (.err ⟨['b', 'a'], 0, "Initial placeholder"⟩, ctxT) ∧
    cacheGet (nodeId lrAnd, 0) ctxT.cache = none := by
  decide

/-- Claim C6: after scheduling eviction for a key present on the call
path into an empty schedule slot, the recorded dependents are exactly the
keys the back-to-front walk meets before the first occurrence of the key;
the call path splits as those dependents followed by the key, so every
recorded dependent was pushed strictly after the key. -/
theorem claim_C6_schedule_after (ctx : Packrust.Context) (key : Packrust.CacheKey)
    (hmem : key ∈ ctx.call_path)
    (hnew : Packrust.lookupPE key ctx.pending_evictions = none) :
    Packrust.lookupPE key (Packrust.schedule_cache_eviction ctx key).pending_evictions =
      some (Packrust.walk_dependents key ctx.call_path) ∧
    ctx.call_path = Packrust.walk_dependents key ctx.call_path ++
      key :: Packrust.afterWalk key ctx.call_path ∧
    key ∉ Packrust.walk_dependents key ctx.call_path := by
  obtain ⟨hsplit, hnot⟩ := Packrust.walk_afterWalk_split key ctx.call_path hmem
  refine ⟨?_, hsplit, hnot⟩
  simp [Packrust.schedule_cache_eviction, hnew, Packrust.lookupPE_insert_self]

/-- Witness for claim C6 on the call path with key `(5, 0)`, where the
walk collects `(7, 0)` and stops at the key. -/
theorem claim_C6_schedule_after_witness :
    ((5, 0) : Packrust.CacheKey) ∈
      (Packrust.Context.mk [(7, 0), (5, 0), (2, 0)] []).call_path ∧
    (Packrust.lookupPE (5, 0)
        (Packrust.schedule_cache_eviction
          (Packrust.Context.mk [(7, 0), (5, 0), (2, 0)] []) (5, 0)).pending_evictions =
      some (Packrust.walk_dependents (5, 0)
        (Packrust.Context.mk [(7, 0), (5, 0), (2, 0)] []).call_path) ∧
    (Packrust.Context.mk [(7, 0), (5, 0), (2, 0)] []).call_path =
      Packrust.walk_dependents (5, 0)
          (Packrust.Context.mk [(7, 0), (5, 0), (2, 0)] []).call_path ++
        (5, 0) :: Packrust.afterWalk (5, 0)
          (Packrust.Context.mk [(7, 0), (5, 0), (2, 0)] []).call_path ∧
    ((5, 0) : Packrust.CacheKey) ∉ Packrust.walk_dependents (5, 0)
      (Packrust.Context.mk [(7, 0), (5, 0), (2, 0)] []).call_path) :=
  ⟨by decide,
    claim_C6_schedule_after (Packrust.Context.mk [(7, 0), (5, 0), (2, 0)] []) (5, 0)
      (by decide) (by decide)⟩

end Packrat

namespace Packrat

/-- Claim C7: `satisfy`'s raw body behaves as specified — `char('a')` on
`"a"` succeeds with `(1, 'a')`, its raw body on `"b"` fails at 0 naming
`'a'` and `'b'`, and at end of input it fails naming `EOF` — but the
driver discards the raw failure, so `char('a').parse(0)` on `"b"` returns
the placeholder error at position 0 instead of the reason the claim (and
the raw body itself) prescribe. -/
theorem claim_C7_satisfy_driver_placeholder :
    parse 10 [] (charP 0 'a') 0 (Ctx.new ['a']) = some (.ok 1 (.ch 'a'), ctxA1) ∧
    (parse 10 [] (charP 0 'a') 0 (Ctx.new ['b'])).map Prod.fst =
      some (.err ⟨['b'], 0, "Initial placeholder"⟩) ∧
    rawEval 3 [] (charP 0 'a') 0 (Ctx.new ['b']) =
      some (.err ⟨['b'], 0, "expected " ++ String.mk [Char.ofNat 39, 'a', Char.ofNat 39] ++
        " got " ++ String.mk ['b']⟩, Ctx.new ['b']) ∧
    rawEval 3 [] (charP 0 'a') 0 (Ctx.new []) =
      some (.err ⟨[], 0, "expected " ++ String.mk [Char.ofNat 39, 'a', Char.ofNat 39] ++
        " got EOF"⟩, Ctx.new []) := by
  decide

/-- Claim C8: `lazy(name, build)` fixes the placeholder's id before
`build` runs, installs exactly `build placeholder` (so recursive
references inside the built grammar are the placeholder itself, sharing
its id), and every parse of the placeholder's body delegates to the
installed parser. -/
theorem claim_C8_lazy_knot (i : Nat) (build : PNode → PNode) (env : GEnv)
    (fuel pos : Nat) (ctx : Ctx) (real : PNode)
    (henv : envGet i env = some real)
    (hreal : real = (lazyP i build).2.2) :
    nodeId (lazyP i build).1 = i ∧
    (lazyP i build).2 = (i, build (lazyP i build).1) ∧
    rawEval (fuel + 1) env (lazyP i build).1 pos ctx =
      parse fuel env (build (lazyP i build).1) pos ctx := by
  refine ⟨rfl, rfl, ?_⟩
  have h1 : eval (fuel + 1) (.rawC env (PNode.ref i) pos ctx) =
      eval fuel (.parseC env real pos ctx) := eval_rawC_ref fuel env i pos ctx real henv
  rw [hreal] at h1
  exact h1

/-- Witness for claim C8 with the build closure `|p| p.or(char('b'))`. -/
theorem claim_C8_lazy_knot_witness :
    nodeId (lazyP 7 buildW).1 = 7 ∧
    (lazyP 7 buildW).2 = (7, buildW (lazyP 7 buildW).1) ∧
    rawEval 4 lzEnvW (lazyP 7 buildW).1 0 (Ctx.new ['b']) =
      parse 3 lzEnvW (buildW (lazyP 7 buildW).1) 0 (Ctx.new ['b']) :=
  claim_C8_lazy_knot 7 buildW lzEnvW 3 0 (Ctx.new ['b']) (buildW (PNode.ref 7)) rfl rfl

/-- Claim C9 (amended): repeated calls agree once no left recursion is in
flight — any call that returns with an empty `lr_stack` has fixed its
memo, and every later call at the same parser and position returns the
identical result without touching the context. -/
theorem claim_C9_stable_after_clean (f g : Nat) (env : GEnv) (n : PNode) (pos : Nat)
    (ctx : Ctx) (r : PResult) (ctx' : Ctx)
    (h1 : parse (f + 1) env n pos ctx = some (r, ctx'))
    (h2 : ctx'.lr_stack = []) :
    parse (g + 1) env n pos ctx' = some (r, ctx') := by
  cases hcg : cacheGet (nodeId n, pos) ctx.cache with
  | some entry =>
    cases entry with
    | initial =>
      rw [show parse (f + 1) env n pos ctx = eval (f + 1) (.parseC env n pos ctx) from rfl,
        eval_parseC_initial f env n pos ctx hcg] at h1
      simp only [Option.some.injEq, Prod.mk.injEq] at h1
      obtain ⟨hr1, hc1⟩ := h1
      by_cases hc : ctx.lr_stack.head? = some (nodeId n)
      · rw [if_pos hc] at hc1
        subst hc1
        rw [h2] at hc
        cases hc
      · rw [if_neg hc] at hc1
        rw [← hc1] at h2
        cases h2
    | inProgress r0 =>
      simp only [parse, eval, hcg, Option.some.injEq, Prod.mk.injEq] at h1
      obtain ⟨hr1, hc1⟩ := h1
      subst hc1
      rw [← hr1]
      exact parse_cached_inProgress g env n pos ctx r0 hcg
    | fixed r0 =>
      simp only [parse, eval, hcg, Option.some.injEq, Prod.mk.injEq] at h1
      obtain ⟨hr1, hc1⟩ := h1
      subst hc1
      rw [← hr1]
      exact parse_cached_fixed g env n pos ctx r0 hcg
  | none =>
    cases hg : eval f (.growC env n pos (nodeId n, pos) pos
        (.err ⟨ctx.source, pos, "Initial placeholder"⟩)
        { ctx with cache := cacheInsert (nodeId n, pos) Entry.initial ctx.cache }) with
    | none =>
      rw [show parse (f + 1) env n pos ctx = eval (f + 1) (.parseC env n pos ctx) from rfl,
        eval_parseC_miss_none f env n pos ctx hcg hg] at h1
      cases h1
    | some out1 =>
      obtain ⟨br, ctx2⟩ := out1
      rw [show parse (f + 1) env n pos ctx = eval (f + 1) (.parseC env n pos ctx) from rfl,
        eval_parseC_miss_some f env n pos ctx br ctx2 hcg hg] at h1
      have hpair := Option.some.inj h1
      cases hl : ctx2.lr_stack.head? with
      | none =>
        simp only [parseExit, hl] at hpair
        rw [Prod.mk.injEq] at hpair
        obtain ⟨hr1, hc1⟩ := hpair
        subst hc1
        rw [← hr1]
        exact parse_cached_fixed g env n pos _ br
          (cacheGet_insert_self (nodeId n, pos) (Entry.fixed br) ctx2.cache)
      | some i =>
        by_cases hi : i = nodeId n
        · simp only [parseExit, hl, if_pos hi] at hpair
          rw [Prod.mk.injEq] at hpair
          obtain ⟨hr1, hc1⟩ := hpair
          subst hc1
          rw [← hr1]
          exact parse_cached_fixed g env n pos _ br
            (cacheGet_insert_self (nodeId n, pos) (Entry.fixed br) ctx2.cache)
        · simp only [parseExit, hl, if_neg hi] at hpair
          rw [Prod.mk.injEq] at hpair
          obtain ⟨hr1, hc1⟩ := hpair
          rw [← hc1] at h2
          rw [show ({ ctx2 with cache := cacheErase (nodeId n, pos) ctx2.cache } : Ctx).lr_stack
            = ctx2.lr_stack from rfl] at h2
          rw [h2] at hl
          cases hl

/-- Witness for the amended claim C9: after `char('a')` completes on
`"a"` with an empty lr stack, a second call returns the same memoized
success and the same context. -/
theorem claim_C9_stable_after_clean_witness :
    parse 4 [] (charP 0 'a') 0 ctxA1 = some (.ok 1 (.ch 'a'), ctxA1) :=
  claim_C9_stable_after_clean 9 3 [] (charP 0 'a') 0 (Ctx.new ['a']) (.ok 1 (.ch 'a')) ctxA1
    (by decide) (by decide)

/-- Counterexample to claim C9 as stated: in one session of the
left-recursive grammar `A = A 'a' / 'b'` on `"ba"` the sequencing parser
`A.and('a')` is parsed twice at position 0 — once while `A`'s entry is
the `Initial` marker (context `ctxT`, seed not yet grown) and once while
it is the `InProgress` seed `'b'` (context `ctxS`, the next growth
iteration) — with different results, so two calls for the same parser
and position during a left-recursion growth are not identical. -/
theorem claim_C9_counterexample :
    parse 30 gLenv lrAnd 0 ctxT = some (.err ⟨['b', 'a'], 0, "Initial placeholder"⟩, ctxT) ∧
    parse 30 gLenv lrAnd 0 ctxS = some (.ok 2 (.pair (.ch 'b') (.ch 'a')), ctxS) ∧
    (PResult.err ⟨['b', 'a'], 0, "Initial placeholder"⟩ : PResult) ≠
      .ok 2 (.pair (.ch 'b') (.ch 'a')) := by
  decide

/-- Claim C10: a probe that finds an `InProgress` or `Fixed` entry at
`(self.id, pos)` returns the stored result and leaves the whole context
unchanged — no cache mutation and no `lr_stack` mutation; only the
`Initial` probe branch touches `lr_stack`. -/
theorem claim_C10_cached_probe_pure (fuel : Nat) (env : GEnv) (n : PNode) (pos : Nat)
    (ctx : Ctx) (r : PResult)
    (h : cacheGet (nodeId n, pos) ctx.cache = some (Entry.inProgress r) ∨
      cacheGet (nodeId n, pos) ctx.cache = some (Entry.fixed r)) :
    parse (fuel + 1) env n pos ctx = some (r, ctx) := by
  rcases h with h | h
  · exact parse_cached_inProgress fuel env n pos ctx r h
  · exact parse_cached_fixed fuel env n pos ctx r h

/-- Witness for claim C10: a probe hitting the `InProgress` seed of the
left-recursion head in `ctxS` returns it and leaves `ctxS` unchanged. -/
theorem claim_C10_cached_probe_pure_witness :
    parse 3 gLenv (PNode.ref 1) 0 ctxS = some (.ok 1 (.ch 'b'), ctxS) :=
  claim_C10_cached_probe_pure 2 gLenv (PNode.ref 1) 0 ctxS (.ok 1 (.ch 'b'))
    (Or.inl (by decide))

end Packrat
